import Mathlib

/-
Shallow embedding of src/MyProject.py: a Wikipedia crawl that checkpoints
per-entity link lists to CSV files and assembles a directed graph with
networkx. Genders and node types are plain strings, as in the program.
-/

/-- Attribute dict of a networkx node, restricted to the two keys the
program ever sets: the node `type` and, for persons, the `gender`. -/
structure NodeAttrs where
  type : Option String
  gender : Option String
deriving DecidableEq

/-- A networkx DiGraph as the program uses it: insertion-ordered node list
with attribute dicts, and a presence-only directed edge list. -/
structure Graph where
  nodes : List (String × NodeAttrs)
  edges : List (String × String)
deriving DecidableEq

def Graph.empty : Graph := ⟨[], []⟩

/-- First-match association lookup (dict lookup on a key-unique list). -/
def assoc {β : Type} : List (String × β) → String → Option β
  | [], _ => none
  | e :: rest, n => if e.1 = n then some e.2 else assoc rest n

def hasNode (g : Graph) (n : String) : Bool := (assoc g.nodes n).isSome

/-- Update every entry keyed `n` the way networkx `add_node` updates an
existing node's attribute dict: `type` is always passed, `gender` only
when the call supplies it. -/
def updNodes (l : List (String × NodeAttrs)) (n : String) (ty : String)
    (gen : Option String) : List (String × NodeAttrs) :=
  l.map (fun e =>
    if e.1 = n then (e.1, ⟨some ty, if gen.isSome then gen else e.2.gender⟩)
    else e)

/-- networkx `G.add_node(n, type=ty[, gender=gen])`: insert a fresh node, or
update the existing node's attribute dict (attributes are overwritten). -/
def add_node (g : Graph) (n : String) (ty : String) (gen : Option String) : Graph :=
  if hasNode g n then { g with nodes := updNodes g.nodes n ty gen }
  else { g with nodes := g.nodes ++ [(n, ⟨some ty, gen⟩)] }

/-- Insert a node with an empty attribute dict unless it already exists;
what networkx `add_edge` does to each missing endpoint. -/
def ensureNode (g : Graph) (w : String) : Graph :=
  if hasNode g w then g else { g with nodes := g.nodes ++ [(w, ⟨none, none⟩)] }

/-- networkx `G.add_edge(u, v)`: silently create missing endpoint nodes
(with empty attribute dicts), then record the edge; presence-only. -/
def add_edge (g : Graph) (u v : String) : Graph :=
  let g2 := ensureNode (ensureNode g u) v
  if (u, v) ∈ g2.edges then g2 else { g2 with edges := g2.edges ++ [(u, v)] }

def nodeNames (g : Graph) : List String := g.nodes.map Prod.fst

def typeOf (g : Graph) (n : String) : Option String :=
  (assoc g.nodes n).bind (fun a => a.type)

def genderOf (g : Graph) (n : String) : Option String :=
  (assoc g.nodes n).bind (fun a => a.gender)

/-- Python `x in original_people` membership test. -/
def memList : List String → String → Bool
  | [], _ => false
  | y :: ys, x => if y = x then true else memList ys x

/-- One row of a person CSV, step 4 body (lines 134-147): skip blank names;
bidirectional edges when the linked person is in the original set, else a
one-directional edge to a freshly added (or re-added!) Person node. -/
def addPersonRow (frontier : List String) (p : String) (g : Graph)
    (row : String × String) : Graph :=
  if row.1 ≠ "" then
    if memList frontier row.1 then
      add_edge (add_edge g p row.1) row.1 p
    else
      add_edge (add_node g row.1 "Person" (some row.2)) p row.1
  else g

def addPersonLinks (frontier : List String) (g : Graph) (p : String)
    (rows : List (String × String)) : Graph :=
  rows.foldl (addPersonRow frontier p) g

/-- Steps 3-4 of the program (lines 111-147): topic node, frontier nodes
with their recorded genders and topic edges, then the per-person link
lists. `frontier` is the iteration order over `original_people`; `gmap`
is `person_gender_map.get(_, "Unknown")`; `ll` gives each person CSV's
parsed rows. -/
def frontierStep (topic : String) (gmap : String → String) (g : Graph)
    (p : String) : Graph :=
  add_edge (add_node g p "Person" (some (gmap p))) topic p

def buildGraph (topic : String) (frontier : List String)
    (gmap : String → String) (ll : String → List (String × String)) : Graph :=
  frontier.foldl (fun g p => addPersonLinks frontier g p (ll p))
    (frontier.foldl (frontierStep topic gmap)
      (add_node Graph.empty topic "Topic" none))

/-
EntityProcessor: process_page (lines 43-60).
-/

/-- The external PageSource capability: page existence and the ordered,
deduplicated link titles of a page. -/
structure PageSource where
  pageExists : String → Bool
  links : String → List String

/-- `process_page(title)` (lines 43-60): empty result for a missing page,
otherwise the fetched links filtered by the person classifier `cls`, each
annotated by the gender oracle `go`, appended in fetch order. -/
def process_page (src : PageSource) (cls : String → Bool)
    (go : String → String) (title : String) : List (String × String) :=
  if src.pageExists title then
    (src.links title).foldl
      (fun acc link => if cls link then acc ++ [(link, go link)] else acc) []
  else []

/-
Gender detection: detect_gender (lines 25-36).
-/

/-- Python `str.split()` tokenizer over the characters: maximal runs of
non-whitespace characters, empty pieces discarded. `cur` holds the current
token's characters in reverse. -/
def pyTokens : List Char → List Char → List String
  | [], cur => if cur.isEmpty then [] else [String.mk cur.reverse]
  | c :: rest, cur =>
    if c.isWhitespace then
      if cur.isEmpty then pyTokens rest []
      else String.mk cur.reverse :: pyTokens rest []
    else pyTokens rest (c :: cur)

/-- Python `name.split()`: split on whitespace, discarding empty pieces. -/
def pySplit (s : String) : List String := pyTokens s.toList []

/-- `name_parts[0] if name_parts else name` (lines 27-28). -/
def first_name (name : String) : String :=
  match pySplit name with
  | [] => name
  | p :: _ => p

/-- `detect_gender(name)` (lines 25-36), with the external gender_guesser
detector as the function `d` from a first name to its raw result string. -/
def detect_gender (d : String → String) (name : String) : String :=
  let name_parts := pySplit name
  let fn := match name_parts with
    | [] => name
    | p :: _ => p
  let gender_result := d fn
  if gender_result = "male" ∨ gender_result = "mostly_male" then "Male"
  else if gender_result = "female" ∨ gender_result = "mostly_female" then "Female"
  else "Unknown"

/-- The spec's mapping from a raw detector result to the program's gender
strings, stated from the claim's words for comparison with the code. -/
def gender_map (r : String) : String :=
  if r = "male" ∨ r = "mostly_male" then "Male"
  else if r = "female" ∨ r = "mostly_female" then "Female"
  else "Unknown"

/-
CheckpointStore and the scheduler loop (steps 1-2, lines 70-109).
-/

/-- The checkpoint store: one persisted LinkList per entity name. The file
system of CSV checkpoints, as a key-value list (newest first). -/
structure Store where
  entries : List (String × List (String × String))
deriving DecidableEq

def Store.has (s : Store) (n : String) : Bool := (assoc s.entries n).isSome

def Store.get (s : Store) (n : String) : List (String × String) :=
  (assoc s.entries n).getD []

def Store.put (s : Store) (n : String) (l : List (String × String)) : Store :=
  ⟨(n, l) :: s.entries⟩

/-- Reading the seed CSV (lines 85-94): the frontier is the non-empty names
of the seed checkpoint's rows. -/
def extractFrontier (ll : List (String × String)) : List String :=
  (ll.map Prod.fst).filter (fun x => x ≠ "")

/-- One iteration of the step-2 loop (lines 99-109): skip an entity whose
checkpoint exists, otherwise fetch (recorded in the fetch log) and persist. -/
def schedStep (proc : String → List (String × String))
    (acc : Store × List String) (p : String) : Store × List String :=
  if acc.1.has p then acc else (acc.1.put p (proc p), acc.2 ++ [p])

/-- Step 1 (lines 70-78): process and persist the seed checkpoint unless it
already exists; the fetch log records whether the seed was fetched. -/
def seedStep (proc : String → List (String × String)) (seed : String)
    (s : Store) : Store × List String :=
  if s.has seed then (s, ([] : List String))
  else (s.put seed (proc seed), [seed])

/-- Steps 1-2 (lines 70-109): process the seed unless checkpointed, read the
frontier back from the seed checkpoint, then process each frontier entity
unless checkpointed. Returns the final store and the log of entities
actually fetched. -/
def runSched (proc : String → List (String × String)) (seed : String)
    (s : Store) : Store × List String :=
  (extractFrontier ((seedStep proc seed s).1.get seed)).foldl
    (schedStep proc) (seedStep proc seed s)

/-
save_to_csv (lines 62-68) and its crash states.
-/

/-- `save_to_csv` (lines 62-68): the CSV rows of a finished checkpoint file,
header first. -/
def save_to_csv (person_data : List (String × String)) : List (List String) :=
  ["Name", "Gender"] :: person_data.map (fun r => [r.1, r.2])

/-- The file contents observable if the process crashes during
`save_to_csv`: the file is created at the final path by `open(filepath, "w")`
and grows row by row, so every initial segment of the finished content is a
possible on-disk state, and `os.path.exists` accepts each of them. -/
def save_to_csv_crash_states (person_data : List (String × String)) :
    List (List (List String)) :=
  (save_to_csv person_data).inits

/-- The checkpoint reader (lines 85-94 and 130-139): skip the header row,
keep rows with a non-empty name, pairing the name with the gender cell. -/
def parse_checkpoint (rows : List (List String)) : List (String × String) :=
  (rows.drop 1).filterMap (fun row =>
    match row with
    | [] => none
    | name :: rest => if name ≠ "" then some (name, rest.headD "") else none)

/-
General fold helpers.
-/

theorem foldl_pres {α β : Type} (P : β → Prop) (f : β → α → β)
    (hpres : ∀ b a, P b → P (f b a)) :
    ∀ (l : List α) (b : β), P b → P (l.foldl f b) := by
  intro l
  induction l with
  | nil => intro b hb; exact hb
  | cons x xs ih => intro b hb; exact ih (f b x) (hpres b x hb)

theorem foldl_estab {α β : Type} (P : β → Prop) (f : β → α → β)
    (hpres : ∀ b a, P b → P (f b a)) :
    ∀ (l : List α) (x : α), x ∈ l → (∀ b, P (f b x)) →
      ∀ b, P (l.foldl f b) := by
  intro l
  induction l with
  | nil => intro x hx; cases hx
  | cons y ys ih =>
    intro x hx hest b
    rcases List.mem_cons.mp hx with h | h
    · subst h
      exact foldl_pres P f hpres ys (f b x) (hest b)
    · exact ih x h hest (f b y)

/-
assoc lookup lemmas.
-/

theorem assoc_append_of_none {β : Type} {l1 : List (String × β)} {n : String}
    (l2 : List (String × β)) (h : assoc l1 n = none) :
    assoc (l1 ++ l2) n = assoc l2 n := by
  induction l1 with
  | nil => simp
  | cons e rest ih =>
    simp only [assoc] at h ⊢
    by_cases he : e.1 = n
    · simp [he] at h
    · simp only [if_neg he] at h ⊢
      exact ih h

theorem assoc_append_of_some {β : Type} {l1 : List (String × β)} {n : String}
    {a : β} (l2 : List (String × β)) (h : assoc l1 n = some a) :
    assoc (l1 ++ l2) n = some a := by
  induction l1 with
  | nil => simp [assoc] at h
  | cons e rest ih =>
    simp only [assoc] at h ⊢
    by_cases he : e.1 = n
    · simp only [if_pos he] at h ⊢; exact h
    · simp only [if_neg he] at h ⊢; exact ih h

theorem assoc_isSome_iff_mem {β : Type} (l : List (String × β)) (n : String) :
    (assoc l n).isSome = true ↔ n ∈ l.map Prod.fst := by
  induction l with
  | nil => simp [assoc]
  | cons e rest ih =>
    simp only [assoc, List.map_cons, List.mem_cons]
    by_cases he : e.1 = n
    · simp [he]
    · simp only [if_neg he, ih]
      constructor
      · intro h; exact Or.inr h
      · intro h
        rcases h with h | h
        · exact absurd h.symm he
        · exact h

theorem memList_iff (l : List String) (x : String) :
    memList l x = true ↔ x ∈ l := by
  induction l with
  | nil => simp [memList]
  | cons y ys ih =>
    simp only [memList, List.mem_cons]
    by_cases hy : y = x
    · simp [hy]
    · simp only [if_neg hy, ih]
      constructor
      · intro h; exact Or.inr h
      · intro h
        rcases h with h | h
        · exact absurd h.symm hy
        · exact h

theorem hasNode_iff (g : Graph) (n : String) :
    hasNode g n = true ↔ n ∈ nodeNames g := by
  unfold hasNode nodeNames
  exact assoc_isSome_iff_mem g.nodes n

/-
add_node lemmas.
-/

theorem edges_add_node (g : Graph) (n ty : String) (gen : Option String) :
    (add_node g n ty gen).edges = g.edges := by
  unfold add_node
  by_cases h : hasNode g n <;> simp [h]

theorem keys_updNodes (l : List (String × NodeAttrs)) (n ty : String)
    (gen : Option String) :
    (updNodes l n ty gen).map Prod.fst = l.map Prod.fst := by
  induction l with
  | nil => rfl
  | cons e rest ih =>
    simp only [updNodes, List.map_cons] at ih ⊢
    by_cases he : e.1 = n
    · simp [he, ih]
    · simp [he, ih]

theorem assoc_updNodes_self (l : List (String × NodeAttrs)) (n ty : String)
    (gen : Option String) :
    assoc (updNodes l n ty gen) n
      = (assoc l n).map
          (fun a => ⟨some ty, if gen.isSome then gen else a.gender⟩) := by
  induction l with
  | nil => rfl
  | cons e rest ih =>
    simp only [updNodes, List.map_cons, assoc] at ih ⊢
    by_cases he : e.1 = n
    · simp [he]
    · simp [he, ih]

theorem assoc_updNodes_ne (l : List (String × NodeAttrs)) {m n : String}
    (ty : String) (gen : Option String) (h : m ≠ n) :
    assoc (updNodes l n ty gen) m = assoc l m := by
  induction l with
  | nil => rfl
  | cons e rest ih =>
    simp only [updNodes, List.map_cons, assoc] at ih ⊢
    have hnm : ¬ n = m := fun hx => h hx.symm
    by_cases he : e.1 = n
    · have hm : ¬ e.1 = m := by rw [he]; exact hnm
      simp [he, hm, hnm, ih]
    · by_cases hm : e.1 = m
      · simp [he, hm, hnm, h]
      · simp [he, hm, ih]

theorem assoc_add_node_ne (g : Graph) {m n : String} (ty : String)
    (gen : Option String) (h : m ≠ n) :
    assoc (add_node g n ty gen).nodes m = assoc g.nodes m := by
  unfold add_node
  by_cases hn : hasNode g n
  · simp only [if_pos hn]
    exact assoc_updNodes_ne g.nodes ty gen h
  · simp only [if_neg hn]
    cases ha : assoc g.nodes m with
    | none =>
      rw [assoc_append_of_none _ ha]
      have hnm : ¬ n = m := fun hx => h hx.symm
      simp [assoc, hnm]
    | some a => exact assoc_append_of_some _ ha

theorem typeOf_add_node_self (g : Graph) (n ty : String) (gen : Option String) :
    typeOf (add_node g n ty gen) n = some ty := by
  unfold typeOf add_node
  by_cases hn : hasNode g n
  · simp only [if_pos hn, assoc_updNodes_self]
    unfold hasNode at hn
    cases ha : assoc g.nodes n with
    | none => rw [ha] at hn; simp at hn
    | some a => simp [ha]
  · simp only [if_neg hn]
    unfold hasNode at hn
    have ha : assoc g.nodes n = none := by
      cases ha : assoc g.nodes n with
      | none => rfl
      | some a => rw [ha] at hn; simp at hn
    rw [assoc_append_of_none _ ha]
    simp [assoc]

theorem genderOf_add_node_some (g : Graph) (n ty x : String) :
    genderOf (add_node g n ty (some x)) n = some x := by
  unfold genderOf add_node
  by_cases hn : hasNode g n
  · simp only [if_pos hn, assoc_updNodes_self]
    unfold hasNode at hn
    cases ha : assoc g.nodes n with
    | none => rw [ha] at hn; simp at hn
    | some a => simp [ha]
  · simp only [if_neg hn]
    unfold hasNode at hn
    have ha : assoc g.nodes n = none := by
      cases ha : assoc g.nodes n with
      | none => rfl
      | some a => rw [ha] at hn; simp at hn
    rw [assoc_append_of_none _ ha]
    simp [assoc]

theorem typeOf_add_node_ne (g : Graph) {m n : String} (ty : String)
    (gen : Option String) (h : m ≠ n) :
    typeOf (add_node g n ty gen) m = typeOf g m := by
  unfold typeOf
  rw [assoc_add_node_ne g ty gen h]

theorem genderOf_add_node_ne (g : Graph) {m n : String} (ty : String)
    (gen : Option String) (h : m ≠ n) :
    genderOf (add_node g n ty gen) m = genderOf g m := by
  unfold genderOf
  rw [assoc_add_node_ne g ty gen h]

theorem nodeNames_add_node (g : Graph) (n ty : String) (gen : Option String) :
    nodeNames (add_node g n ty gen)
      = if hasNode g n then nodeNames g else nodeNames g ++ [n] := by
  unfold add_node nodeNames
  by_cases hn : hasNode g n
  · simp [hn, keys_updNodes]
  · simp [hn]

theorem mem_nodeNames_add_node (g : Graph) {m : String} (n ty : String)
    (gen : Option String) (h : m ∈ nodeNames g) :
    m ∈ nodeNames (add_node g n ty gen) := by
  rw [nodeNames_add_node]
  by_cases hn : hasNode g n
  · simpa [hn]
  · simp [hn, List.mem_append]
    exact Or.inl h

theorem self_mem_nodeNames_add_node (g : Graph) (n ty : String)
    (gen : Option String) : n ∈ nodeNames (add_node g n ty gen) := by
  rw [nodeNames_add_node]
  by_cases hn : hasNode g n
  · simpa [hn] using (hasNode_iff g n).mp hn
  · simp [hn]

theorem nodup_nodeNames_add_node (g : Graph) (n ty : String)
    (gen : Option String) (h : (nodeNames g).Nodup) :
    (nodeNames (add_node g n ty gen)).Nodup := by
  rw [nodeNames_add_node]
  by_cases hn : hasNode g n
  · simpa [hn]
  · simp only [if_neg hn]
    have hnm : n ∉ nodeNames g := fun hx => hn ((hasNode_iff g n).mpr hx)
    simpa [List.nodup_append] using ⟨h, hnm⟩

/-
ensureNode and add_edge lemmas.
-/

theorem edges_ensureNode (g : Graph) (w : String) :
    (ensureNode g w).edges = g.edges := by
  unfold ensureNode
  by_cases h : hasNode g w <;> simp [h]

theorem assoc_bind_ensureNode (g : Graph) (w m : String)
    (f : NodeAttrs → Option String) (hf : f ⟨none, none⟩ = none) :
    (assoc (ensureNode g w).nodes m).bind f = (assoc g.nodes m).bind f := by
  unfold ensureNode
  by_cases h : hasNode g w
  · simp [h]
  · simp only [if_neg h]
    cases ha : assoc g.nodes m with
    | none =>
      rw [assoc_append_of_none _ ha]
      by_cases hw : w = m
      · simp [assoc, hw, hf]
      · simp [assoc, hw]
    | some a => rw [assoc_append_of_some _ ha]

theorem nodeNames_ensureNode (g : Graph) (w : String) :
    nodeNames (ensureNode g w)
      = if hasNode g w then nodeNames g else nodeNames g ++ [w] := by
  unfold ensureNode nodeNames
  by_cases h : hasNode g w <;> simp [h]

theorem mem_nodeNames_ensureNode (g : Graph) {m : String} (w : String)
    (h : m ∈ nodeNames g) : m ∈ nodeNames (ensureNode g w) := by
  rw [nodeNames_ensureNode]
  by_cases hw : hasNode g w
  · simpa [hw]
  · simp only [if_neg hw, List.mem_append]
    exact Or.inl h

theorem self_mem_nodeNames_ensureNode (g : Graph) (w : String) :
    w ∈ nodeNames (ensureNode g w) := by
  rw [nodeNames_ensureNode]
  by_cases hw : hasNode g w
  · simpa [hw] using (hasNode_iff g w).mp hw
  · simp [hw]

theorem nodup_nodeNames_ensureNode (g : Graph) (w : String)
    (h : (nodeNames g).Nodup) : (nodeNames (ensureNode g w)).Nodup := by
  rw [nodeNames_ensureNode]
  by_cases hw : hasNode g w
  · simpa [hw]
  · simp only [if_neg hw]
    have hnm : w ∉ nodeNames g := fun hx => hw ((hasNode_iff g w).mpr hx)
    simpa [List.nodup_append] using ⟨h, hnm⟩

theorem nodes_add_edge (g : Graph) (u v : String) :
    (add_edge g u v).nodes = (ensureNode (ensureNode g u) v).nodes := by
  unfold add_edge
  by_cases h : (u, v) ∈ (ensureNode (ensureNode g u) v).edges <;> simp [h]

theorem edges_add_edge (g : Graph) (u v : String) :
    (add_edge g u v).edges
      = if (u, v) ∈ g.edges then g.edges else g.edges ++ [(u, v)] := by
  have hE : (ensureNode (ensureNode g u) v).edges = g.edges := by
    rw [edges_ensureNode, edges_ensureNode]
  unfold add_edge
  simp only [hE]
  by_cases h : (u, v) ∈ g.edges <;> simp [h, hE]

theorem mem_edges_add_edge (g : Graph) (u v : String) (e : String × String) :
    e ∈ (add_edge g u v).edges ↔ e ∈ g.edges ∨ e = (u, v) := by
  rw [edges_add_edge]
  by_cases h : (u, v) ∈ g.edges
  · simp only [if_pos h]
    constructor
    · intro he; exact Or.inl he
    · intro he
      rcases he with he | he
      · exact he
      · rw [he]; exact h
  · simp [if_neg h, List.mem_append]

theorem self_mem_edges_add_edge (g : Graph) (u v : String) :
    (u, v) ∈ (add_edge g u v).edges :=
  (mem_edges_add_edge g u v (u, v)).mpr (Or.inr rfl)

theorem mono_edges_add_edge (g : Graph) (u v : String) {e : String × String}
    (h : e ∈ g.edges) : e ∈ (add_edge g u v).edges :=
  (mem_edges_add_edge g u v e).mpr (Or.inl h)

theorem typeOf_add_edge (g : Graph) (u v m : String) :
    typeOf (add_edge g u v) m = typeOf g m := by
  unfold typeOf
  rw [nodes_add_edge]
  rw [assoc_bind_ensureNode _ v m _ rfl, assoc_bind_ensureNode _ u m _ rfl]

theorem genderOf_add_edge (g : Graph) (u v m : String) :
    genderOf (add_edge g u v) m = genderOf g m := by
  unfold genderOf
  rw [nodes_add_edge]
  rw [assoc_bind_ensureNode _ v m _ rfl, assoc_bind_ensureNode _ u m _ rfl]

theorem mem_nodeNames_add_edge (g : Graph) {m : String} (u v : String)
    (h : m ∈ nodeNames g) : m ∈ nodeNames (add_edge g u v) := by
  have : nodeNames (add_edge g u v) = nodeNames (ensureNode (ensureNode g u) v) := by
    unfold nodeNames; rw [nodes_add_edge]
  rw [this]
  exact mem_nodeNames_ensureNode _ v (mem_nodeNames_ensureNode _ u h)

theorem left_mem_nodeNames_add_edge (g : Graph) (u v : String) :
    u ∈ nodeNames (add_edge g u v) := by
  have : nodeNames (add_edge g u v) = nodeNames (ensureNode (ensureNode g u) v) := by
    unfold nodeNames; rw [nodes_add_edge]
  rw [this]
  exact mem_nodeNames_ensureNode _ v (self_mem_nodeNames_ensureNode g u)

theorem right_mem_nodeNames_add_edge (g : Graph) (u v : String) :
    v ∈ nodeNames (add_edge g u v) := by
  have : nodeNames (add_edge g u v) = nodeNames (ensureNode (ensureNode g u) v) := by
    unfold nodeNames; rw [nodes_add_edge]
  rw [this]
  exact self_mem_nodeNames_ensureNode _ v

theorem nodup_nodeNames_add_edge (g : Graph) (u v : String)
    (h : (nodeNames g).Nodup) : (nodeNames (add_edge g u v)).Nodup := by
  have : nodeNames (add_edge g u v) = nodeNames (ensureNode (ensureNode g u) v) := by
    unfold nodeNames; rw [nodes_add_edge]
  rw [this]
  exact nodup_nodeNames_ensureNode _ v (nodup_nodeNames_ensureNode _ u h)

/-
Step-4 row lemmas.
-/

theorem foldl_pres_mem {α β : Type} (P : β → Prop) (f : β → α → β) :
    ∀ (l : List α), (∀ b a, a ∈ l → P b → P (f b a)) →
      ∀ b, P b → P (l.foldl f b) := by
  intro l
  induction l with
  | nil => intro _ b hb; exact hb
  | cons x xs ih =>
    intro h b hb
    exact ih (fun b a ha => h b a (List.mem_cons_of_mem x ha)) (f b x)
      (h b x (List.mem_cons_self x xs) hb)

theorem mono_edges_addPersonRow (frontier : List String) (p : String)
    (g : Graph) (row : String × String) {e : String × String}
    (h : e ∈ g.edges) : e ∈ (addPersonRow frontier p g row).edges := by
  unfold addPersonRow
  by_cases h0 : row.1 = ""
  · simpa [h0] using h
  · by_cases hm : memList frontier row.1 = true
    · simp only [ne_eq, h0, not_false_iff, if_true, hm]
      exact mono_edges_add_edge _ _ _ (mono_edges_add_edge _ _ _ h)
    · simp only [ne_eq, h0, not_false_iff, if_true, hm, if_false]
      apply mono_edges_add_edge
      rw [edges_add_node]
      exact h

theorem mono_edges_addPersonLinks (frontier : List String) (p : String)
    (rows : List (String × String)) (g : Graph) {e : String × String}
    (h : e ∈ g.edges) : e ∈ (addPersonLinks frontier g p rows).edges := by
  unfold addPersonLinks
  exact foldl_pres (fun g => e ∈ g.edges) (addPersonRow frontier p)
    (fun b a hb => mono_edges_addPersonRow frontier p b a hb) rows g h

theorem genderOf_addPersonRow (frontier : List String) (C p : String)
    (hCf : C ∉ frontier) (hC0 : C ≠ "") (g : Graph) (row : String × String) :
    genderOf (addPersonRow frontier p g row) C
      = if row.1 = C then some row.2 else genderOf g C := by
  unfold addPersonRow
  by_cases h0 : row.1 = ""
  · have hcond : ¬ (row.1 ≠ "") := fun hx => hx h0
    have hrc : ¬ (row.1 = C) := by rw [h0]; exact fun hx => hC0 hx.symm
    rw [if_neg hcond, if_neg hrc]
  · rw [if_pos h0]
    by_cases hm : memList frontier row.1 = true
    · have hrc : ¬ row.1 = C :=
        fun hx => hCf (hx ▸ (memList_iff frontier row.1).mp hm)
      rw [if_pos hm, genderOf_add_edge, genderOf_add_edge, if_neg hrc]
    · rw [if_neg hm]
      by_cases hc : row.1 = C
      · rw [hc, if_pos rfl, genderOf_add_edge, genderOf_add_node_some]
      · have hcr : C ≠ row.1 := fun hx => hc hx.symm
        rw [genderOf_add_edge, genderOf_add_node_ne g _ _ hcr, if_neg hc]

theorem genderOf_addPersonLinks (frontier : List String) (C p : String)
    (hCf : C ∉ frontier) (hC0 : C ≠ "") :
    ∀ (rows : List (String × String)) (g : Graph),
    genderOf (addPersonLinks frontier g p rows) C
      = rows.foldl (fun a r => if r.1 = C then some r.2 else a) (genderOf g C) := by
  intro rows
  induction rows with
  | nil => intro g; rfl
  | cons row rest ih =>
    intro g
    unfold addPersonLinks at ih ⊢
    simp only [List.foldl_cons]
    rw [ih (addPersonRow frontier p g row),
      genderOf_addPersonRow frontier C p hCf hC0 g row]

/-- The gender recorded for `C` by the last processed reference to `C`
across the frontier's link lists (the spec-side description of the
overwrite behavior observed in the code). -/
def lastRefGender (frontier : List String)
    (ll : String → List (String × String)) (C : String) : Option String :=
  frontier.foldl
    (fun acc p => (ll p).foldl (fun a r => if r.1 = C then some r.2 else a) acc)
    none

theorem genderOf_step4_fold (frontier : List String) (C : String)
    (ll : String → List (String × String))
    (hCf : C ∉ frontier) (hC0 : C ≠ "") :
    ∀ (fl : List String) (g : Graph) (acc : Option String),
      genderOf g C = acc →
      genderOf (fl.foldl (fun g p => addPersonLinks frontier g p (ll p)) g) C
        = fl.foldl
            (fun a p => (ll p).foldl (fun a r => if r.1 = C then some r.2 else a) a)
            acc := by
  intro fl
  induction fl with
  | nil => intro g acc h; simpa using h
  | cons p rest ih =>
    intro g acc h
    simp only [List.foldl_cons]
    apply ih
    rw [genderOf_addPersonLinks frontier C p hCf hC0 (ll p) g, h]

/-
Claim C1.
-/

/-- Link lists for the C1 scenario: frontier entities A and B, processed in
that order, both referencing the non-frontier person C with different
genders. -/
def c1Links : String → List (String × String) :=
  fun n => if n = "A" then [("C", "Female")]
           else if n = "B" then [("C", "Male")] else []

/-- C1, counterexample: with frontier [A, B] processed in that order, A
records C as Female first and B as Male second, yet the final graph stores
Male for C: the gender written first is the one discarded, so a Person
node's gender is not set at most once and is overwritten. -/
theorem c1_first_write_counterexample :
    genderOf (buildGraph "T" ["A", "B"] (fun _ => "Unknown") c1Links) "C"
      = some "Male" ∧
    genderOf (buildGraph "T" ["A", "B"] (fun _ => "Unknown") c1Links) "C"
      ≠ some "Female" := by
  decide

/-- C1, amended: if the same non-frontier person C (distinct from the seed
topic and non-empty) is referenced in the LinkLists of frontier entities,
then C's node carries the gender from whichever reference was processed
LAST: networkx add_node overwrites the gender attribute, so each later
differing value replaces the earlier one (last-write-wins). -/
theorem c1_gender_last_write_wins (topic C : String) (frontier : List String)
    (gmap : String → String) (ll : String → List (String × String))
    (hCf : C ∉ frontier) (hCt : C ≠ topic) (hC0 : C ≠ "") :
    genderOf (buildGraph topic frontier gmap ll) C
      = lastRefGender frontier ll C := by
  unfold buildGraph lastRefGender
  apply genderOf_step4_fold frontier C ll hCf hC0 frontier _ none
  have hinit : genderOf (add_node Graph.empty topic "Topic" none) C = none := by
    rw [genderOf_add_node_ne _ _ _ hCt]
    rfl
  have hstep : ∀ (g : Graph) (p : String), p ∈ frontier →
      genderOf g C = none → genderOf (frontierStep topic gmap g p) C = none := by
    intro g p hp hg
    unfold frontierStep
    have hpC : C ≠ p := fun hx => hCf (hx ▸ hp)
    rw [genderOf_add_edge, genderOf_add_node_ne _ _ _ hpC, hg]
  exact foldl_pres_mem (fun g => genderOf g C = none)
    (frontierStep topic gmap) frontier hstep _ hinit

/-- C1, witness for the amended theorem at the counterexample input: the
final gender of C is the last processed reference's value. -/
theorem c1_gender_last_write_wins_witness :
    genderOf (buildGraph "T" ["A", "B"] (fun _ => "Unknown") c1Links) "C"
      = lastRefGender ["A", "B"] c1Links "C" :=
  c1_gender_last_write_wins "T" "C" ["A", "B"] (fun _ => "Unknown") c1Links
    (by decide) (by decide) (by decide)

/-
Claim C2.
-/

/-- Recorded frontier genders of the concrete scenario: Alice entered the
frontier as Female, Bob as Male. -/
def scenarioGender : String → String :=
  fun n => if n = "Alice" then "Female" else if n = "Bob" then "Male"
           else "Unknown"

/-- Link lists of the concrete scenario: Alice's checkpoint lists Bob as
Female and Carol as Female, Bob's lists Dave as Male. -/
def scenarioLinks : String → List (String × String) :=
  fun n => if n = "Alice" then [("Bob", "Female"), ("Carol", "Female")]
           else if n = "Bob" then [("Dave", "Male")] else []

/-- C2: for seed AI with frontier entities Alice and Bob, the built graph
has exactly the nodes AI (Topic), Alice, Bob, Carol, Dave (Persons) and
exactly the edges AI-Alice, AI-Bob, Alice-Bob, Bob-Alice, Alice-Carol,
Bob-Dave, and Bob keeps the gender recorded when he entered the frontier
(Male), not the Female of Alice's list; the node and edge sets are the
same for the other frontier iteration order. -/
theorem c2_scenario_graph_exact :
    nodeNames (buildGraph "AI" ["Alice", "Bob"] scenarioGender scenarioLinks)
      = ["AI", "Alice", "Bob", "Carol", "Dave"] ∧
    typeOf (buildGraph "AI" ["Alice", "Bob"] scenarioGender scenarioLinks) "AI"
      = some "Topic" ∧
    typeOf (buildGraph "AI" ["Alice", "Bob"] scenarioGender scenarioLinks) "Alice"
      = some "Person" ∧
    typeOf (buildGraph "AI" ["Alice", "Bob"] scenarioGender scenarioLinks) "Bob"
      = some "Person" ∧
    typeOf (buildGraph "AI" ["Alice", "Bob"] scenarioGender scenarioLinks) "Carol"
      = some "Person" ∧
    typeOf (buildGraph "AI" ["Alice", "Bob"] scenarioGender scenarioLinks) "Dave"
      = some "Person" ∧
    (buildGraph "AI" ["Alice", "Bob"] scenarioGender scenarioLinks).edges
      = [("AI", "Alice"), ("AI", "Bob"), ("Alice", "Bob"), ("Bob", "Alice"),
         ("Alice", "Carol"), ("Bob", "Dave")] ∧
    genderOf (buildGraph "AI" ["Alice", "Bob"] scenarioGender scenarioLinks) "Bob"
      = some "Male" ∧
    genderOf (buildGraph "AI" ["Alice", "Bob"] scenarioGender scenarioLinks) "Bob"
      ≠ some "Female" ∧
    List.Perm
      (nodeNames (buildGraph "AI" ["Bob", "Alice"] scenarioGender scenarioLinks))
      ["AI", "Alice", "Bob", "Carol", "Dave"] ∧
    List.Perm
      (buildGraph "AI" ["Bob", "Alice"] scenarioGender scenarioLinks).edges
      [("AI", "Alice"), ("AI", "Bob"), ("Alice", "Bob"), ("Bob", "Alice"),
       ("Alice", "Carol"), ("Bob", "Dave")] ∧
    genderOf (buildGraph "AI" ["Bob", "Alice"] scenarioGender scenarioLinks) "Bob"
      = some "Male" := by
  decide

/-
Claim C5.
-/

theorem foldl_append_filterMap (cls : String → Bool) (go : String → String) :
    ∀ (links : List String) (acc : List (String × String)),
      links.foldl
        (fun acc link => if cls link then acc ++ [(link, go link)] else acc) acc
        = acc ++ links.filterMap (fun l => if cls l then some (l, go l) else none) := by
  intro links
  induction links with
  | nil => intro acc; simp
  | cons l ls ih =>
    intro acc
    simp only [List.foldl_cons, List.filterMap_cons]
    cases h : cls l
    · simp only [h, Bool.false_eq_true, if_false, if_neg]
      simp [ih]
    · simp only [h, if_true, if_pos]
      simp [ih, List.append_assoc]

/-- C5: process_page returns the empty LinkList when the page does not
exist, and otherwise exactly the (title, gender) pairs of the fetched link
titles the classifier marks as persons, in fetch order. -/
theorem c5_process_page_spec (src : PageSource) (cls : String → Bool)
    (go : String → String) (title : String) :
    process_page src cls go title
      = if src.pageExists title then
          (src.links title).filterMap
            (fun l => if cls l then some (l, go l) else none)
        else [] := by
  unfold process_page
  by_cases h : src.pageExists title = true
  · rw [if_pos h, if_pos h, foldl_append_filterMap cls go (src.links title) []]
    simp
  · rw [if_neg h, if_neg h]

/-
Claim C10.
-/

theorem detect_gender_eq_gender_map (d : String → String) (nm : String) :
    detect_gender d nm = gender_map (d (first_name nm)) := by
  unfold detect_gender gender_map first_name
  cases pySplit nm <;> rfl

/-- C10: detect_gender returns one of Male, Female, Unknown; the result
depends only on the first whitespace-separated token of the name (the
whole string if it has no tokens); detector results male and mostly_male
give Male, female and mostly_female give Female, all else Unknown — the
mapping gender_map of the claim. -/
theorem c10_detect_gender_spec (d : String → String) (name other : String)
    (h : first_name name = first_name other) :
    detect_gender d name = gender_map (d (first_name name)) ∧
    detect_gender d name = detect_gender d other ∧
    detect_gender d name ∈ (["Male", "Female", "Unknown"] : List String) := by
  refine ⟨detect_gender_eq_gender_map d name, ?_, ?_⟩
  · rw [detect_gender_eq_gender_map d name, detect_gender_eq_gender_map d other, h]
  · rw [detect_gender_eq_gender_map d name]
    unfold gender_map
    split_ifs <;> simp

/-- The external detector of the C10 witness: Ada is reported female,
everything else unknown. -/
def c10Detector : String → String :=
  fun s => if s = "Ada" then "female" else "unknown"

/-- C10, witness: two names sharing the first token Ada get the same
result, the one given by the detector mapping. -/
theorem c10_detect_gender_spec_witness :
    detect_gender c10Detector "Ada Lovelace"
      = gender_map (c10Detector (first_name "Ada Lovelace")) ∧
    detect_gender c10Detector "Ada Lovelace"
      = detect_gender c10Detector "Ada King" ∧
    detect_gender c10Detector "Ada Lovelace"
      ∈ (["Male", "Female", "Unknown"] : List String) :=
  c10_detect_gender_spec c10Detector "Ada Lovelace" "Ada King" (by decide)

/-
Claim C8.
-/

/-- C8: a crash between writing the header and the data rows of
save_to_csv leaves the file at its final path holding only the header; the
existence check accepts it (it is among the on-disk crash states), yet its
content differs from the complete checkpoint and the reader parses it as
an empty LinkList although the real LinkList is non-empty. -/
theorem c8_checkpoint_partial_write_visible :
    [["Name", "Gender"]] ∈ save_to_csv_crash_states [("Carol", "Female")] ∧
    [["Name", "Gender"]] ≠ save_to_csv [("Carol", "Female")] ∧
    parse_checkpoint [["Name", "Gender"]] = [] ∧
    parse_checkpoint (save_to_csv [("Carol", "Female")])
      = [("Carol", "Female")] := by
  decide

/-
Claim C3.
-/

theorem edges_addPersonRow_bidir (frontier : List String)
    (p linked lgen : String) (hl : memList frontier linked = true)
    (h0 : linked ≠ "") (g : Graph) :
    (p, linked) ∈ (addPersonRow frontier p g (linked, lgen)).edges ∧
    (linked, p) ∈ (addPersonRow frontier p g (linked, lgen)).edges := by
  unfold addPersonRow
  dsimp only
  rw [if_pos h0, if_pos hl]
  constructor
  · exact mono_edges_add_edge _ _ _ (self_mem_edges_add_edge g p linked)
  · exact self_mem_edges_add_edge _ linked p

/-- C3: whenever a frontier entity p's LinkList contains an entry naming
another frontier member, the final graph has both the edge p to linked and
the edge linked to p, regardless of the other lists. (Frontier names are
non-empty, as the CSV reader drops empty names.) -/
theorem c3_bidirectional_edges (topic : String) (frontier : List String)
    (gmap : String → String) (ll : String → List (String × String))
    (p linked lgen : String)
    (hp : p ∈ frontier) (hrow : (linked, lgen) ∈ ll p)
    (hl : linked ∈ frontier) (hne : "" ∉ frontier) :
    (p, linked) ∈ (buildGraph topic frontier gmap ll).edges ∧
    (linked, p) ∈ (buildGraph topic frontier gmap ll).edges := by
  have h0 : linked ≠ "" := fun hx => hne (hx ▸ hl)
  have hlb : memList frontier linked = true := (memList_iff _ _).mpr hl
  unfold buildGraph
  have hrowPres : ∀ (g : Graph) (row : String × String),
      (fun g => (p, linked) ∈ g.edges ∧ (linked, p) ∈ g.edges) g →
      (fun g => (p, linked) ∈ g.edges ∧ (linked, p) ∈ g.edges)
        (addPersonRow frontier p g row) :=
    fun g row hg => ⟨mono_edges_addPersonRow frontier p g row hg.1,
      mono_edges_addPersonRow frontier p g row hg.2⟩
  have hest : ∀ g : Graph,
      (p, linked) ∈ (addPersonLinks frontier g p (ll p)).edges ∧
      (linked, p) ∈ (addPersonLinks frontier g p (ll p)).edges := by
    intro g
    unfold addPersonLinks
    exact foldl_estab
      (fun g => (p, linked) ∈ g.edges ∧ (linked, p) ∈ g.edges)
      (addPersonRow frontier p) hrowPres (ll p) (linked, lgen) hrow
      (edges_addPersonRow_bidir frontier p linked lgen hlb h0) g
  exact foldl_estab
    (fun g => (p, linked) ∈ g.edges ∧ (linked, p) ∈ g.edges)
    (fun g q => addPersonLinks frontier g q (ll q))
    (fun g q hg => ⟨mono_edges_addPersonLinks frontier q (ll q) g hg.1,
      mono_edges_addPersonLinks frontier q (ll q) g hg.2⟩)
    frontier p hp hest _

/-- Link lists of the C3 witness: A's checkpoint names fellow frontier
member B; B's never mentions A. -/
def c3Links : String → List (String × String) :=
  fun n => if n = "A" then [("B", "Unknown")] else []

/-- C3, witness: both directed edges between the frontier members A and B
are present although only A's list mentions B. -/
theorem c3_bidirectional_edges_witness :
    ("A", "B") ∈ (buildGraph "T" ["A", "B"] (fun _ => "Unknown") c3Links).edges ∧
    ("B", "A") ∈ (buildGraph "T" ["A", "B"] (fun _ => "Unknown") c3Links).edges :=
  c3_bidirectional_edges "T" ["A", "B"] (fun _ => "Unknown") c3Links
    "A" "B" "Unknown" (by decide) (by decide) (by decide) (by decide)

/-
Claim C7.
-/

/-- Both endpoints of every edge have a node entry. -/
def noDanglingEdges (g : Graph) : Prop :=
  ∀ e ∈ g.edges, e.1 ∈ nodeNames g ∧ e.2 ∈ nodeNames g

theorem nodang_add_node (g : Graph) (n ty : String) (gen : Option String)
    (h : noDanglingEdges g) : noDanglingEdges (add_node g n ty gen) := by
  intro e he
  rw [edges_add_node] at he
  exact ⟨mem_nodeNames_add_node g n ty gen (h e he).1,
    mem_nodeNames_add_node g n ty gen (h e he).2⟩

theorem nodang_add_edge (g : Graph) (u v : String)
    (h : noDanglingEdges g) : noDanglingEdges (add_edge g u v) := by
  intro e he
  rcases (mem_edges_add_edge g u v e).mp he with he | he
  · exact ⟨mem_nodeNames_add_edge g u v (h e he).1,
      mem_nodeNames_add_edge g u v (h e he).2⟩
  · rw [he]
    exact ⟨left_mem_nodeNames_add_edge g u v, right_mem_nodeNames_add_edge g u v⟩

theorem nodang_addPersonRow (frontier : List String) (p : String) (g : Graph)
    (row : String × String) (h : noDanglingEdges g) :
    noDanglingEdges (addPersonRow frontier p g row) := by
  unfold addPersonRow
  by_cases h0 : row.1 = ""
  · rw [if_neg (fun hx => hx h0)]
    exact h
  · rw [if_pos h0]
    by_cases hm : memList frontier row.1 = true
    · rw [if_pos hm]
      exact nodang_add_edge _ _ _ (nodang_add_edge _ _ _ h)
    · rw [if_neg hm]
      exact nodang_add_edge _ _ _ (nodang_add_node _ _ _ _ h)

/-- C7: for every input frontier and collection of LinkLists and every
edge (s, t) of the final graph, both s and t have node entries — no
dangling edges. -/
theorem c7_no_dangling_edges (topic : String) (frontier : List String)
    (gmap : String → String) (ll : String → List (String × String))
    (e : String × String)
    (he : e ∈ (buildGraph topic frontier gmap ll).edges) :
    e.1 ∈ nodeNames (buildGraph topic frontier gmap ll) ∧
    e.2 ∈ nodeNames (buildGraph topic frontier gmap ll) := by
  have hinv : noDanglingEdges (buildGraph topic frontier gmap ll) := by
    unfold buildGraph
    apply foldl_pres noDanglingEdges
      (fun g q => addPersonLinks frontier g q (ll q))
      (fun g q hg => foldl_pres noDanglingEdges (addPersonRow frontier q)
        (fun g row hg => nodang_addPersonRow frontier q g row hg) (ll q) g hg)
    apply foldl_pres noDanglingEdges (frontierStep topic gmap)
      (fun g q hg => nodang_add_edge _ _ _ (nodang_add_node _ _ _ _ hg))
    intro e he
    rw [edges_add_node] at he
    cases he
  exact hinv e he

/-- C7, witness: the topic-to-frontier edge of a tiny build has both of
its endpoints among the node entries. -/
theorem c7_no_dangling_edges_witness :
    "T" ∈ nodeNames (buildGraph "T" ["A"] (fun _ => "Unknown") (fun _ => [])) ∧
    "A" ∈ nodeNames (buildGraph "T" ["A"] (fun _ => "Unknown") (fun _ => [])) :=
  c7_no_dangling_edges "T" ["A"] (fun _ => "Unknown") (fun _ => [])
    ("T", "A") (by decide)

/-
Claim C4.
-/

theorem sources_addPersonRow (frontier : List String) (topic p : String)
    (hp : p ∈ frontier) (g : Graph) (row : String × String)
    (h : ∀ e ∈ g.edges, e.1 = topic ∨ e.1 ∈ frontier) :
    ∀ e ∈ (addPersonRow frontier p g row).edges,
      e.1 = topic ∨ e.1 ∈ frontier := by
  unfold addPersonRow
  by_cases h0 : row.1 = ""
  · rw [if_neg (fun hx => hx h0)]
    exact h
  · rw [if_pos h0]
    by_cases hm : memList frontier row.1 = true
    · rw [if_pos hm]
      intro e he
      rcases (mem_edges_add_edge _ _ _ e).mp he with he | he
      · rcases (mem_edges_add_edge _ _ _ e).mp he with he | he
        · exact h e he
        · rw [he]; exact Or.inr hp
      · rw [he]; exact Or.inr ((memList_iff _ _).mp hm)
    · rw [if_neg hm]
      intro e he
      rcases (mem_edges_add_edge _ _ _ e).mp he with he | he
      · rw [edges_add_node] at he
        exact h e he
      · rw [he]; exact Or.inr hp

/-- Every edge of the built graph has its source among the topic and the
frontier members: leaves never get outgoing edges. -/
theorem sources_buildGraph (topic : String) (frontier : List String)
    (gmap : String → String) (ll : String → List (String × String)) :
    ∀ e ∈ (buildGraph topic frontier gmap ll).edges,
      e.1 = topic ∨ e.1 ∈ frontier := by
  unfold buildGraph
  apply foldl_pres_mem (fun g => ∀ e ∈ g.edges, e.1 = topic ∨ e.1 ∈ frontier)
    (fun g q => addPersonLinks frontier g q (ll q)) frontier
    (fun g q hq hg => foldl_pres
      (fun g => ∀ e ∈ g.edges, e.1 = topic ∨ e.1 ∈ frontier)
      (addPersonRow frontier q)
      (fun g row hg => sources_addPersonRow frontier topic q hq g row hg)
      (ll q) g hg)
  apply foldl_pres_mem (fun g => ∀ e ∈ g.edges, e.1 = topic ∨ e.1 ∈ frontier)
    (frontierStep topic gmap) frontier
  · intro g q _ hg e he
    unfold frontierStep at he
    rcases (mem_edges_add_edge _ _ _ e).mp he with he | he
    · rw [edges_add_node] at he
      exact hg e he
    · rw [he]; exact Or.inl rfl
  · intro e he
    rw [edges_add_node] at he
    cases he

theorem typeOf_person_addPersonRow (frontier : List String) (p C : String)
    (g : Graph) (row : String × String) (h : typeOf g C = some "Person") :
    typeOf (addPersonRow frontier p g row) C = some "Person" := by
  unfold addPersonRow
  by_cases h0 : row.1 = ""
  · rw [if_neg (fun hx => hx h0)]
    exact h
  · rw [if_pos h0]
    by_cases hm : memList frontier row.1 = true
    · rw [if_pos hm, typeOf_add_edge, typeOf_add_edge]
      exact h
    · rw [if_neg hm, typeOf_add_edge]
      by_cases hc : row.1 = C
      · rw [hc, typeOf_add_node_self]
      · rw [typeOf_add_node_ne g _ _ (fun hx => hc hx.symm)]
        exact h

/-- Link lists of the C4 counterexample: frontier member A's list names
the seed topic T itself, which is not a frontier member. -/
def c4Links : String → List (String × String) :=
  fun n => if n = "A" then [("T", "Female")] else []

/-- C4, counterexample: take C to be the seed topic name T. C appears in
frontier entity A's LinkList, is not in the frontier and is mentioned
nowhere else, yet the final graph DOES contain the edge C to A — the
topic-to-frontier edge of step 3 — contradicting the claim's "contains no
edge C to A". -/
theorem c4_leaf_counterexample :
    ("T", "Female") ∈ c4Links "A" ∧
    memList ["A"] "T" = false ∧
    ("T", "A") ∈ (buildGraph "T" ["A"] (fun _ => "Unknown") c4Links).edges := by
  decide

/-- C4, amended: the leaf rule additionally requires the leaf C to differ
from the seed topic name (and be non-empty, as link names are): then the
graph contains the edge A to C, no edge C to A, and a Person node for C. -/
theorem c4_leaf_edge_rule (topic : String) (frontier : List String)
    (gmap : String → String) (ll : String → List (String × String))
    (A C cg : String)
    (hA : A ∈ frontier) (hrow : (C, cg) ∈ ll A) (hCf : C ∉ frontier)
    (hCt : C ≠ topic) (hC0 : C ≠ "")
    (honly : ∀ q ∈ frontier, q ≠ A → ∀ r ∈ ll q, r.1 ≠ C) :
    (A, C) ∈ (buildGraph topic frontier gmap ll).edges ∧
    (C, A) ∉ (buildGraph topic frontier gmap ll).edges ∧
    typeOf (buildGraph topic frontier gmap ll) C = some "Person" := by
  have hCm : ¬ memList frontier C = true :=
    fun hx => hCf ((memList_iff _ _).mp hx)
  refine ⟨?_, ?_, ?_⟩
  · unfold buildGraph
    refine foldl_estab (fun g => (A, C) ∈ g.edges)
      (fun g q => addPersonLinks frontier g q (ll q))
      (fun g q hg => mono_edges_addPersonLinks frontier q (ll q) g hg)
      frontier A hA ?_ _
    intro g
    unfold addPersonLinks
    refine foldl_estab (fun g => (A, C) ∈ g.edges) (addPersonRow frontier A)
      (fun g row hg => mono_edges_addPersonRow frontier A g row hg)
      (ll A) (C, cg) hrow ?_ g
    intro g
    unfold addPersonRow
    dsimp only
    rw [if_pos hC0, if_neg hCm]
    exact self_mem_edges_add_edge _ A C
  · intro hmem
    rcases sources_buildGraph topic frontier gmap ll (C, A) hmem with h | h
    · exact hCt h
    · exact hCf h
  · unfold buildGraph
    refine foldl_estab (fun g => typeOf g C = some "Person")
      (fun g q => addPersonLinks frontier g q (ll q))
      (fun g q hg => foldl_pres (fun g => typeOf g C = some "Person")
        (addPersonRow frontier q)
        (fun g row hg => typeOf_person_addPersonRow frontier q C g row hg)
        (ll q) g hg)
      frontier A hA ?_ _
    intro g
    unfold addPersonLinks
    refine foldl_estab (fun g => typeOf g C = some "Person")
      (addPersonRow frontier A)
      (fun g row hg => typeOf_person_addPersonRow frontier A C g row hg)
      (ll A) (C, cg) hrow ?_ g
    intro g
    unfold addPersonRow
    dsimp only
    rw [if_pos hC0, if_neg hCm, typeOf_add_edge, typeOf_add_node_self]

/-- Link lists of the C4 witness: A's checkpoint names the leaf person C
only. -/
def c4wLinks : String → List (String × String) :=
  fun n => if n = "A" then [("C", "Female")] else []

/-- C4, witness for the amended theorem: the leaf C gets the one-way edge
from A and a Person node, and no reciprocal edge. -/
theorem c4_leaf_edge_rule_witness :
    ("A", "C") ∈ (buildGraph "T" ["A"] (fun _ => "Unknown") c4wLinks).edges ∧
    ("C", "A") ∉ (buildGraph "T" ["A"] (fun _ => "Unknown") c4wLinks).edges ∧
    typeOf (buildGraph "T" ["A"] (fun _ => "Unknown") c4wLinks) "C"
      = some "Person" :=
  c4_leaf_edge_rule "T" ["A"] (fun _ => "Unknown") c4wLinks "A" "C" "Female"
    (by decide) (by decide) (by decide) (by decide) (by decide)
    (by intro q hq hqA; exact absurd (List.mem_singleton.mp hq) hqA)

/-
Claim C9.
-/

theorem nodup_nodeNames_addPersonRow (frontier : List String) (p : String)
    (g : Graph) (row : String × String) (h : (nodeNames g).Nodup) :
    (nodeNames (addPersonRow frontier p g row)).Nodup := by
  unfold addPersonRow
  by_cases h0 : row.1 = ""
  · rw [if_neg (fun hx => hx h0)]
    exact h
  · rw [if_pos h0]
    by_cases hm : memList frontier row.1 = true
    · rw [if_pos hm]
      exact nodup_nodeNames_add_edge _ _ _ (nodup_nodeNames_add_edge _ _ _ h)
    · rw [if_neg hm]
      exact nodup_nodeNames_add_edge _ _ _ (nodup_nodeNames_add_node _ _ _ _ h)

theorem mem_nodeNames_addPersonRow (frontier : List String) (p m : String)
    (g : Graph) (row : String × String) (h : m ∈ nodeNames g) :
    m ∈ nodeNames (addPersonRow frontier p g row) := by
  unfold addPersonRow
  by_cases h0 : row.1 = ""
  · rw [if_neg (fun hx => hx h0)]
    exact h
  · rw [if_pos h0]
    by_cases hm : memList frontier row.1 = true
    · rw [if_pos hm]
      exact mem_nodeNames_add_edge _ _ _ (mem_nodeNames_add_edge _ _ _ h)
    · rw [if_neg hm]
      exact mem_nodeNames_add_edge _ _ _ (mem_nodeNames_add_node _ _ _ _ h)

theorem typeOf_topic_addPersonRow (frontier : List String) (p topic : String)
    (g : Graph) (row : String × String) (hrt : row.1 ≠ topic)
    (h : typeOf g topic = some "Topic") :
    typeOf (addPersonRow frontier p g row) topic = some "Topic" := by
  unfold addPersonRow
  by_cases h0 : row.1 = ""
  · rw [if_neg (fun hx => hx h0)]
    exact h
  · rw [if_pos h0]
    by_cases hm : memList frontier row.1 = true
    · rw [if_pos hm, typeOf_add_edge, typeOf_add_edge]
      exact h
    · rw [if_neg hm, typeOf_add_edge,
        typeOf_add_node_ne g _ _ (fun hx => hrt hx.symm)]
      exact h

/-- Link lists of the C9 counterexample: frontier member A's list names
the seed topic AI itself. -/
def c9Links : String → List (String × String) :=
  fun n => if n = "A" then [("AI", "Female")] else []

/-- C9, counterexample: when a frontier member's LinkList names the seed
topic, the leaf branch re-adds the topic node with type Person, so the
Topic node's type attribute IS changed by a leaf insertion. -/
theorem c9_topic_type_counterexample :
    typeOf (buildGraph "AI" ["A"] (fun _ => "Unknown") c9Links) "AI"
      = some "Person" ∧
    typeOf (buildGraph "AI" ["A"] (fun _ => "Unknown") c9Links) "AI"
      ≠ some "Topic" := by
  decide

/-- C9, amended: provided the seed topic name is not itself a frontier
member and appears in no LinkList, the final graph has exactly one node
entry for the seed topic and its type attribute is Topic. -/
theorem c9_topic_node_unique (topic : String) (frontier : List String)
    (gmap : String → String) (ll : String → List (String × String))
    (h1 : topic ∉ frontier)
    (h2 : ∀ q ∈ frontier, ∀ r ∈ ll q, r.1 ≠ topic) :
    (nodeNames (buildGraph topic frontier gmap ll)).count topic = 1 ∧
    typeOf (buildGraph topic frontier gmap ll) topic = some "Topic" := by
  have hmn : topic ∈ nodeNames (buildGraph topic frontier gmap ll) ∧
      (nodeNames (buildGraph topic frontier gmap ll)).Nodup := by
    unfold buildGraph
    apply foldl_pres
      (fun g => topic ∈ nodeNames g ∧ (nodeNames g).Nodup)
      (fun g q => addPersonLinks frontier g q (ll q))
      (fun g q hg => foldl_pres
        (fun g => topic ∈ nodeNames g ∧ (nodeNames g).Nodup)
        (addPersonRow frontier q)
        (fun g row hg => ⟨mem_nodeNames_addPersonRow frontier q topic g row hg.1,
          nodup_nodeNames_addPersonRow frontier q g row hg.2⟩)
        (ll q) g hg)
    apply foldl_pres
      (fun g => topic ∈ nodeNames g ∧ (nodeNames g).Nodup)
      (frontierStep topic gmap)
      (fun g q hg => ⟨mem_nodeNames_add_edge _ _ _
          (mem_nodeNames_add_node _ _ _ _ hg.1),
        nodup_nodeNames_add_edge _ _ _ (nodup_nodeNames_add_node _ _ _ _ hg.2)⟩)
    constructor
    · show topic ∈ [topic]
      exact List.mem_singleton.mpr rfl
    · show ([topic] : List String).Nodup
      simp
  refine ⟨List.count_eq_one_of_mem hmn.2 hmn.1, ?_⟩
  unfold buildGraph
  apply foldl_pres_mem (fun g => typeOf g topic = some "Topic")
    (fun g q => addPersonLinks frontier g q (ll q)) frontier
    (fun g q hq hg => foldl_pres_mem
      (fun g => typeOf g topic = some "Topic")
      (addPersonRow frontier q) (ll q)
      (fun g row hrow hg =>
        typeOf_topic_addPersonRow frontier q topic g row (h2 q hq row hrow) hg)
      g hg)
  apply foldl_pres_mem (fun g => typeOf g topic = some "Topic")
    (frontierStep topic gmap) frontier
  · intro g q hq hg
    unfold frontierStep
    have hqt : topic ≠ q := fun hx => h1 (hx ▸ hq)
    rw [typeOf_add_edge, typeOf_add_node_ne g _ _ hqt]
    exact hg
  · exact typeOf_add_node_self Graph.empty topic "Topic" none

/-- Link lists of the C9 witness: Alice's checkpoint names the leaf Bob. -/
def c9wLinks : String → List (String × String) :=
  fun n => if n = "Alice" then [("Bob", "Male")] else []

/-- C9, witness for the amended theorem: with no list naming the topic,
the topic node is unique and keeps type Topic. -/
theorem c9_topic_node_unique_witness :
    (nodeNames (buildGraph "AI" ["Alice"] (fun _ => "Unknown") c9wLinks)).count
      "AI" = 1 ∧
    typeOf (buildGraph "AI" ["Alice"] (fun _ => "Unknown") c9wLinks) "AI"
      = some "Topic" :=
  c9_topic_node_unique "AI" ["Alice"] (fun _ => "Unknown") c9wLinks
    (by decide) (by decide)

/-
Claim C6.
-/

theorem store_has_put_self (s : Store) (n : String)
    (l : List (String × String)) : (s.put n l).has n = true := by
  simp [Store.has, Store.put, assoc]

theorem store_has_put_mono (s : Store) (m n : String)
    (l : List (String × String)) (h : s.has m = true) :
    (s.put n l).has m = true := by
  simp only [Store.has, Store.put, assoc] at h ⊢
  by_cases hnm : n = m
  · simp [hnm]
  · simp only [hnm, if_false, if_neg]
    exact h

theorem store_get_put_ne (s : Store) {m n : String}
    (l : List (String × String)) (h : n ≠ m) :
    (s.put n l).get m = s.get m := by
  simp only [Store.get, Store.put, assoc]
  rw [if_neg h]

theorem schedStep_has_mono (proc : String → List (String × String))
    (acc : Store × List String) (p m : String) (h : acc.1.has m = true) :
    (schedStep proc acc p).1.has m = true := by
  unfold schedStep
  by_cases hp : acc.1.has p = true
  · rw [if_pos hp]; exact h
  · rw [if_neg hp]; exact store_has_put_mono _ _ _ _ h

theorem schedStep_seed_pres (proc : String → List (String × String))
    (seed : String) (L : List (String × String)) (acc : Store × List String)
    (p : String) (h : acc.1.has seed = true ∧ acc.1.get seed = L) :
    (schedStep proc acc p).1.has seed = true ∧
    (schedStep proc acc p).1.get seed = L := by
  unfold schedStep
  by_cases hp : acc.1.has p = true
  · rw [if_pos hp]; exact h
  · rw [if_neg hp]
    have hps : p ≠ seed := fun hx => hp (hx ▸ h.1)
    refine ⟨store_has_put_mono _ _ _ _ h.1, ?_⟩
    show (acc.1.put p (proc p)).get seed = L
    rw [store_get_put_ne _ _ hps]
    exact h.2

theorem schedStep_estab_has (proc : String → List (String × String))
    (acc : Store × List String) (p : String) :
    (schedStep proc acc p).1.has p = true := by
  unfold schedStep
  by_cases hp : acc.1.has p = true
  · rw [if_pos hp]; exact hp
  · rw [if_neg hp]; exact store_has_put_self _ _ _

theorem foldl_schedStep_id (proc : String → List (String × String)) :
    ∀ (l : List String) (acc : Store × List String),
      (∀ p ∈ l, acc.1.has p = true) → l.foldl (schedStep proc) acc = acc := by
  intro l
  induction l with
  | nil => intro acc _; rfl
  | cons p rest ih =>
    intro acc h
    simp only [List.foldl_cons]
    have hp : acc.1.has p = true := h p (List.mem_cons_self p rest)
    rw [show schedStep proc acc p = acc from by unfold schedStep; rw [if_pos hp]]
    exact ih acc (fun q hq => h q (List.mem_cons_of_mem p hq))

/-- C6: a second scheduler run on the same seed over the store produced by
the first run fetches nothing — every checkpoint (seed and frontier) is
found present and used as is, and the store is unchanged. -/
theorem c6_second_run_no_fetches (proc : String → List (String × String))
    (seed : String) (s : Store) :
    runSched proc seed (runSched proc seed s).1
      = ((runSched proc seed s).1, []) := by
  have hrs : runSched proc seed s
      = (extractFrontier ((seedStep proc seed s).1.get seed)).foldl
          (schedStep proc) (seedStep proc seed s) := rfl
  have hseed1 : (seedStep proc seed s).1.has seed = true := by
    unfold seedStep
    by_cases h : s.has seed = true
    · rw [if_pos h]; exact h
    · rw [if_neg h]; exact store_has_put_self s seed (proc seed)
  have hPres : ((extractFrontier ((seedStep proc seed s).1.get seed)).foldl
        (schedStep proc) (seedStep proc seed s)).1.has seed = true ∧
      ((extractFrontier ((seedStep proc seed s).1.get seed)).foldl
        (schedStep proc) (seedStep proc seed s)).1.get seed
        = (seedStep proc seed s).1.get seed :=
    foldl_pres (fun acc => acc.1.has seed = true ∧
        acc.1.get seed = (seedStep proc seed s).1.get seed)
      (schedStep proc)
      (fun acc p h => schedStep_seed_pres proc seed _ acc p h)
      (extractFrontier ((seedStep proc seed s).1.get seed))
      (seedStep proc seed s) ⟨hseed1, rfl⟩
  have hAll : ∀ p ∈ extractFrontier ((seedStep proc seed s).1.get seed),
      ((extractFrontier ((seedStep proc seed s).1.get seed)).foldl
        (schedStep proc) (seedStep proc seed s)).1.has p = true := by
    intro p hp
    exact foldl_estab (fun acc => acc.1.has p = true) (schedStep proc)
      (fun acc q h => schedStep_has_mono proc acc q p h)
      (extractFrontier ((seedStep proc seed s).1.get seed)) p hp
      (fun acc => schedStep_estab_has proc acc p) (seedStep proc seed s)
  have key : ∀ t : Store, t.has seed = true →
      (∀ p ∈ extractFrontier (t.get seed), t.has p = true) →
      runSched proc seed t = (t, []) := by
    intro t ht hall
    unfold runSched
    have h2 : seedStep proc seed t = (t, []) := by
      unfold seedStep
      rw [if_pos ht]
    rw [h2]
    exact foldl_schedStep_id proc _ _ hall
  rw [hrs]
  exact key _ hPres.1 (fun p hp => hAll p (by rw [hPres.2] at hp; exact hp))
